import Mathlib

/-!
Shallow embedding of the song/segment/generation-cache subsystem
(source file: source/song.py) and proofs of its specified properties.

Conventions of the embedding:
* Python lists become Lean lists; Python arbitrary-precision ints become Int
  (or Nat where the source value is a length).
* The fixed 2-stage x 2-track shape of the reference configuration
  (Song.NrStages = 2, Song.NrTracks = 2 in the source) is embedded as a
  structure with one field per stage/track.
* Fallible operations return Option.
* String scanning helpers reproduce the behaviour of the two regular
  expressions used by parse_lyrics; re.findall is embedded as a fuelled
  left-to-right scan (fuel = length of the input + 1, which always
  suffices because every step advances at least one position).
-/

/-- Python str.strip default whitespace set. -/
def pyWS (c : Char) : Bool :=
  c = ' ' || c = '\t' || c = '\n' || c = '\r' || c = '\x0b' || c = '\x0c'

/-- Python str.strip: drop whitespace from both ends. -/
def pyStrip (s : String) : String :=
  String.mk (((s.data.dropWhile pyWS).reverse.dropWhile pyWS).reverse)

/-- Python str.lower for the ASCII inputs this program handles. -/
def pyLower (s : String) : String :=
  String.mk (s.data.map Char.toLower)

/-- Word character of the regex class backslash-w (ASCII range). -/
def isWordChar (c : Char) : Bool := c.isAlphanum || c = '_'

/-- Length of the maximal word-character run at the head of the list. -/
def wordRun : List Char → Nat
  | [] => 0
  | c :: cs => if isWordChar c then wordRun cs + 1 else 0

/-- Distance to the first open-bracket or hash character (lookahead of the
lyrics group in the segment regex). -/
def scanStop : List Char → Nat
  | [] => 0
  | c :: cs => if c = '[' || c = '#' then 0 else scanStop cs + 1

/-- Distance to the first hash character (lookahead of the value group in
the tag regex). -/
def scanStopHash : List Char → Nat
  | [] => 0
  | c :: cs => if c = '#' then 0 else scanStopHash cs + 1

/-- Attempt to read a section header at index i: an open bracket,
a nonempty word-character run, a close bracket.  Returns the header name
and the index just after the close bracket. -/
def validHeader (s : List Char) (i : Nat) : Option (List Char × Nat) :=
  match s.get? i with
  | none => none
  | some c =>
    if c = '[' then
      let r := wordRun (s.drop (i+1))
      if r = 0 then none
      else
        match s.get? (i+1+r) with
        | some d => if d = ']' then some ((s.drop (i+1)).take r, i+2+r) else none
        | none => none
    else none

/-- First index at or after q carrying a valid section header (the lazy
extension of the optional tag-block group of the segment regex). -/
def findHeaderFrom (s : List Char) : Nat → Nat → Option Nat
  | 0, _ => none
  | fuel+1, q =>
    if s.length ≤ q then none
    else if (validHeader s q).isSome then some q
    else findHeaderFrom s fuel (q+1)

/-- One match attempt of the segment regex at position p.  Returns the
tag-block group, the header-name group, the lyrics group and the end
position of the match. -/
def matchAt (s : List Char) (p : Nat) : Option (List Char × List Char × List Char × Nat) :=
  match s.get? p with
  | none => none
  | some c =>
    if c = '[' then
      match validHeader s p with
      | some (nm, t) =>
        let k := scanStop (s.drop t)
        some ([], nm, (s.drop t).take k, t + k)
      | none => none
    else if c = '#' then
      match findHeaderFrom s (s.length + 1) (p+1) with
      | some q =>
        match validHeader s q with
        | some (nm, t) =>
          let k := scanStop (s.drop t)
          some ((s.drop p).take (q - p), nm, (s.drop t).take k, t + k)
        | none => none
      | none => none
    else none

/-- Fuelled left-to-right non-overlapping scan of the segment regex. -/
def findallAux (s : List Char) : Nat → Nat → List (List Char × List Char × List Char)
  | 0, _ => []
  | fuel+1, p =>
    if s.length ≤ p then []
    else
      match matchAt s p with
      | some (g1, g2, g3, e) => (g1, g2, g3) :: findallAux s fuel (max e (p+1))
      | none => findallAux s fuel (p+1)

/-- All matches of the segment regex over the script. -/
def raw_segments (lyrics : String) : List (List Char × List Char × List Char) :=
  findallAux lyrics.data (lyrics.data.length + 1) 0

/-- One match attempt of the tag regex at position p: hash, word run,
lazy value up to the next hash or end. -/
def matchTagAt (s : List Char) (p : Nat) : Option (List Char × List Char × Nat) :=
  match s.get? p with
  | none => none
  | some c =>
    if c = '#' then
      let r := wordRun (s.drop (p+1))
      if r = 0 then none
      else
        let t := p + 1 + r
        let k := scanStopHash (s.drop t)
        some ((s.drop (p+1)).take r, (s.drop t).take k, t + k)
    else none

/-- Fuelled left-to-right non-overlapping scan of the tag regex. -/
def tagFindallAux (s : List Char) : Nat → Nat → List (List Char × List Char)
  | 0, _ => []
  | fuel+1, p =>
    if s.length ≤ p then []
    else
      match matchTagAt s p with
      | some (g1, g2, e) => (g1, g2) :: tagFindallAux s fuel (max e (p+1))
      | none => tagFindallAux s fuel (p+1)

/-- All matches of the tag regex over a tag block. -/
def raw_tags (block : List Char) : List (List Char × List Char) :=
  tagFindallAux block (block.length + 1) 0

/-- Decimal value of a digit list. -/
def digitsToNat (l : List Char) : Nat :=
  l.foldl (fun a c => a * 10 + (c.toNat - 48)) 0

/-- Python int(str) on a nonempty all-digit list. -/
def pyParseIntCore (l : List Char) : Option Nat :=
  if l ≠ [] ∧ l.all Char.isDigit then some (digitsToNat l) else none

/-- Python int(str): optional sign then decimal digits; anything else
raises, embedded as none.  (Underscore digit separators are not used by
this program and are not modelled.) -/
def pyParseInt (s : String) : Option Int :=
  let l := (pyStrip s).data
  if l.head? = some '+' then (pyParseIntCore l.tail).map (fun n => (n : Int))
  else if l.head? = some '-' then (pyParseIntCore l.tail).map (fun n => -(n : Int))
  else if l = [] then none
  else (pyParseIntCore l).map (fun n => (n : Int))

/-- Exponent suffix of a float literal, applied to a mantissa held as a
numerator and positive power-of-ten denominator pair. -/
def pyExpPart (l : List Char) (m : Int × Nat) : Option (Int × Nat) :=
  match l with
  | '+' :: d =>
    if d ≠ [] ∧ d.all Char.isDigit then some (m.1 * (10:Int) ^ digitsToNat d, m.2) else none
  | '-' :: d =>
    if d ≠ [] ∧ d.all Char.isDigit then some (m.1, m.2 * 10 ^ digitsToNat d) else none
  | d =>
    if d ≠ [] ∧ d.all Char.isDigit then some (m.1 * (10:Int) ^ digitsToNat d, m.2) else none

/-- Optional exponent part following the mantissa of a float literal. -/
def pyParseExp (l : List Char) (m : Int × Nat) : Option (Int × Nat) :=
  match l with
  | [] => some m
  | 'e' :: r => pyExpPart r m
  | 'E' :: r => pyExpPart r m
  | _ => none

/-- Unsigned float literal: digits, optional dot and fraction digits,
optional exponent. -/
def pyParseFloatCore (l : List Char) : Option (Int × Nat) :=
  let ip := l.takeWhile Char.isDigit
  let r1 := l.dropWhile Char.isDigit
  match r1 with
  | '.' :: r2 =>
    let fp := r2.takeWhile Char.isDigit
    let r3 := r2.dropWhile Char.isDigit
    if ip = [] ∧ fp = [] then none
    else pyParseExp r3
      ((digitsToNat ip : Int) * (10:Int) ^ fp.length + (digitsToNat fp : Int), 10 ^ fp.length)
  | _ => if ip = [] then none else pyParseExp r1 ((digitsToNat ip : Int), 1)

/-- Python float(str), modelled exactly: the value is carried as a
numerator over a positive power-of-ten denominator instead of being
rounded to binary floating point (every literal this program's spec
exercises is exactly representable, and the subsequent conversion to
int agrees).  The inf and nan spellings are embedded as none because
the following int() conversion raises on them, so the observable effect
(the tag is dropped) is identical. -/
def pyParseFloat (s : String) : Option (Int × Nat) :=
  match (pyStrip s).data with
  | [] => none
  | c :: r =>
    if c = '+' then pyParseFloatCore r
    else if c = '-' then (pyParseFloatCore r).map (fun q => (-q.1, q.2))
    else pyParseFloatCore (c :: r)

/-- Python int(float) truncates toward zero. -/
def pyFloatTruncInt (q : Int × Nat) : Int :=
  Int.tdiv q.1 (q.2 : Int)

/-- Last character is the literal time-unit suffix, as tested by Python
str.endswith applied with a one-character argument. -/
def endsWithT (s : String) : Bool :=
  match s.data.getLast? with
  | some c => c = 't'
  | none => false

/-- Value stored in a segment tag mapping: an integer for a coerced
length tag, otherwise the raw trimmed string. -/
inductive TagValue where
  | int : Int → TagValue
  | str : String → TagValue
deriving DecidableEq

/-- Embeds parse_tag.  A raised exception (failed int or float
conversion) is embedded as none. -/
def parse_tag (tag_name : String) (tag_data : String) : Option TagValue :=
  if tag_name = "length" then
    if endsWithT tag_data then (pyParseInt (String.mk tag_data.data.dropLast)).map TagValue.int
    else (pyParseFloat tag_data).map (fun q => TagValue.int (pyFloatTruncInt (q.1 * 50, q.2)))
  else some (TagValue.str tag_data)

/-- Python dict insertion for an association list: replace in place or
append at the end. -/
def insertTag : List (String × TagValue) → String → TagValue → List (String × TagValue)
  | [], k, v => [(k, v)]
  | (k1, v1) :: rest, k, v =>
    if k1 = k then (k, v) :: rest else (k1, v1) :: insertTag rest k v

/-- The tag loop of parse_lyrics: strip and lower-case the name, strip
the value, coerce it, and drop the tag when coercion raises. -/
def buildTags (raw : List (List Char × List Char)) : List (String × TagValue) :=
  raw.foldl
    (fun tags rt =>
      let tag_name := pyLower (pyStrip (String.mk rt.1))
      let tag_data := pyStrip (String.mk rt.2)
      match parse_tag tag_name tag_data with
      | some v => insertTag tags tag_name v
      | none => tags)
    []

/-- Per-stage pair of track buffers (Song.NrTracks = 2). -/
structure TrackSet where
  t0 : List Int
  t1 : List Int
deriving DecidableEq

/-- Token storage for the two stages (Song.NrStages = 2). -/
structure StageTracks where
  st0 : TrackSet
  st1 : TrackSet
deriving DecidableEq

/-- Embeds SongSegment: name, tag mapping, lyric text and the
per-stage/per-track token buffers. -/
structure SongSegment where
  name : String
  tags : List (String × TagValue)
  lyrics : String
  tracks : StageTracks
deriving DecidableEq

/-- Embeds SongSegment.create_empty_tracks. -/
def SongSegment.create_empty_tracks : StageTracks :=
  { st0 := { t0 := [], t1 := [] }, st1 := { t0 := [], t1 := [] } }

/-- Embeds SongSegment.create. -/
def SongSegment.create (name : String) (tags : List (String × TagValue)) (lyrics : String) : SongSegment :=
  { name := name, tags := tags, lyrics := lyrics, tracks := SongSegment.create_empty_tracks }

/-- Embeds SongSegment.track (read one stage/track buffer). -/
def SongSegment.track (seg : SongSegment) (istage itrack : Nat) : List Int :=
  match istage, itrack with
  | 0, 0 => seg.tracks.st0.t0
  | 0, 1 => seg.tracks.st0.t1
  | 1, 0 => seg.tracks.st1.t0
  | 1, 1 => seg.tracks.st1.t1
  | _, _ => []

/-- Embeds SongSegment.cached_length. -/
def SongSegment.cached_length (seg : SongSegment) (istage itrack : Nat) : Nat :=
  (seg.track istage itrack).length

/-- Embeds SongSegment.set_track (replace one stage/track buffer). -/
def SongSegment.set_track (seg : SongSegment) (istage itrack : Nat) (tr : List Int) : SongSegment :=
  match istage, itrack with
  | 0, 0 => { seg with tracks := { seg.tracks with st0 := { seg.tracks.st0 with t0 := tr } } }
  | 0, 1 => { seg with tracks := { seg.tracks with st0 := { seg.tracks.st0 with t1 := tr } } }
  | 1, 0 => { seg with tracks := { seg.tracks with st1 := { seg.tracks.st1 with t0 := tr } } }
  | 1, 1 => { seg with tracks := { seg.tracks with st1 := { seg.tracks.st1 with t1 := tr } } }
  | _, _ => seg

/-- Embeds SongSegment.as_str. -/
def SongSegment.as_str (seg : SongSegment) : String :=
  "[" ++ seg.name ++ "]\n" ++ seg.lyrics ++ "\n\n"

/-- Embeds parse_lyrics: one SongSegment per regex match, with stripped
name and lyrics and the coerced tag mapping. -/
def parse_lyrics (lyrics : String) : List SongSegment :=
  (raw_segments lyrics).map
    (fun m => SongSegment.create (pyStrip (String.mk m.2.1)) (buildTags (raw_tags m.1)) (pyStrip (String.mk m.2.2)))

/-- Positional merge-forward loop of Song._prepare_lyrics: each new
segment within the old list's range adopts (deep-copies) the old
segment's token buffers; SongSegment.merge replaces only the tracks. -/
def mergeForward : List SongSegment → List SongSegment → List SongSegment
  | [], _ => []
  | ns, [] => ns
  | n :: ns, o :: os => { n with tracks := o.tracks } :: mergeForward ns os

/-- Embeds Song.  The reference configuration constants NrStages = 2 and
NrTracks = 2 are fixed by the StageTracks shape. -/
structure Song where
  segments : List SongSegment
  audio_prompt : List Int
  default_track_length : Int
  system_prompt : String
  raw_lyrics : String
  lyrics : String
  genre : String
deriving DecidableEq

/-- Embeds Song.__init__. -/
def Song.init : Song :=
  { segments := []
    audio_prompt := []
    default_track_length := 1500
    system_prompt := "Generate music from the given lyrics segment by segment."
    raw_lyrics := ""
    lyrics := ""
    genre := "" }

/-- Embeds Song._prepare_lyrics: parse the stripped raw lyrics, merge
cached tracks forward positionally, and rebuild the derived lyrics as
the newline join of the segment strings. -/
def Song.prepare_lyrics (song : Song) : Song :=
  let new_segments := mergeForward (parse_lyrics (pyStrip song.raw_lyrics)) song.segments
  { song with
    segments := new_segments
    lyrics := String.intercalate "\n" (new_segments.map SongSegment.as_str) }

/-- Embeds Song.set_lyrics. -/
def Song.set_lyrics (song : Song) (lyrics_text : String) : Song :=
  Song.prepare_lyrics { song with raw_lyrics := lyrics_text }

/-- Embeds Song.merge_segments for one stage: per track, the
concatenation of every segment's buffer for that stage and track. -/
def Song.merge_segments (song : Song) (istage : Nat) : TrackSet :=
  { t0 := (song.segments.map (fun s => s.track istage 0)).flatten
    t1 := (song.segments.map (fun s => s.track istage 1)).flatten }

/-- Interleaving produced by rearrange of the two stage-0 track buffers:
output positions cycle through the tracks for each time step. -/
def interleave_tracks : List Int → List Int → List Int
  | a :: as, b :: bs => a :: b :: interleave_tracks as bs
  | _, _ => []

/-- Embeds SongSegment.merged_stage1_tracks.  The numpy array
construction plus rearrange requires a rectangular input: ragged
per-track buffers raise, embedded as none. -/
def SongSegment.merged_stage1_tracks (seg : SongSegment) : Option (List Int) :=
  if seg.tracks.st0.t0.length = seg.tracks.st0.t1.length then
    some (interleave_tracks seg.tracks.st0.t0 seg.tracks.st0.t1)
  else none

/-- Embeds GenerationCache: flat per-stage/per-track buffers plus the
boundary table of (name, start_token, end_token) records. -/
structure GenerationCache where
  tracks : StageTracks
  segments : List (String × Int × Int)
deriving DecidableEq

/-- Embeds GenerationCache.track with its bounds check: out-of-range
stage or track indices yield the empty buffer. -/
def GenerationCache.track (c : GenerationCache) (istage itrack : Nat) : List Int :=
  match istage, itrack with
  | 0, 0 => c.tracks.st0.t0
  | 0, 1 => c.tracks.st0.t1
  | 1, 0 => c.tracks.st1.t0
  | 1, 1 => c.tracks.st1.t1
  | _, _ => []

/-- Total cached length of a boundary table: the sum of end minus start
over its records. -/
def cached_total (recs : List (String × Int × Int)) : Int :=
  (recs.map (fun r => r.2.2 - r.2.1)).sum

/-- The backward walk of GenerationCache.rewind, expressed on the
reversed boundary table: drop whole trailing records while the remaining
token count strictly exceeds their length, then shrink the first
surviving record and stop. -/
def rewind_walk : Int → List (String × Int × Int) → List (String × Int × Int)
  | _, [] => []
  | tokens, (name, start, e) :: rest =>
    if e - start < tokens then rewind_walk (tokens - (e - start)) rest
    else (name, start, e - tokens) :: rest

/-- Embeds GenerationCache.rewind: the duration is converted to stage-0
tokens by floor division by 20 (Python // on ints) and the boundary
table is walked from its last record backward. -/
def GenerationCache.rewind (c : GenerationCache) (timems : Int) : GenerationCache :=
  { c with segments := (rewind_walk (Int.fdiv timems 20) c.segments.reverse).reverse }

/-- The boundary-table loop of GenerationCache.create_from_song: walk
segments in order, skip those with zero stage-0/track-0 cached length,
and append (name, cursor, cursor + len) for the others. -/
def mkBoundaries : Int → List SongSegment → List (String × Int × Int)
  | _, [] => []
  | dataidx, seg :: rest =>
    let segment_length := seg.cached_length 0 0
    if segment_length = 0 then mkBoundaries dataidx rest
    else (seg.name, dataidx, dataidx + segment_length) :: mkBoundaries (dataidx + segment_length) rest

/-- Embeds GenerationCache.create_from_song. -/
def GenerationCache.create_from_song (song : Song) : GenerationCache :=
  { tracks := { st0 := song.merge_segments 0, st1 := song.merge_segments 1 }
    segments := mkBoundaries 0 song.segments }

/-- Python list slice bound: negative indices count from the end, then
the result is clamped to the list's range. -/
def pyBound (len : Nat) (i : Int) : Nat :=
  if i < 0 then (if i + len < 0 then 0 else (i + len).toNat) else min i.toNat len

/-- Python list slicing l[i:j]. -/
def pySlice (l : List Int) (i j : Int) : List Int :=
  (l.take (pyBound l.length j)).drop (pyBound l.length i)

/-- The per-stage/per-track body of the transfer_to_song loop: scale the
record's token span by the stage element size, skip when the start
offset lies beyond the buffer or the buffer is empty, clamp the end
offset to the buffer length, and replace the segment's cached buffer
with the slice. -/
def transferStep (c : GenerationCache) (r : String × Int × Int) (seg : SongSegment) (istage itrack : Nat) : SongSegment :=
  let track := c.track istage itrack
  let elem_size : Int := if istage = 1 then 8 else 1
  let start_pos := r.2.1 * elem_size
  let end_pos := r.2.2 * elem_size
  if (track.length : Int) < start_pos ∨ track.length = 0 then seg
  else
    let end_pos2 := if (track.length : Int) < end_pos then (track.length : Int) else end_pos
    seg.set_track istage itrack (pySlice track start_pos end_pos2)

/-- One boundary record applied to one song segment: the stage and track
loops of transfer_to_song, unrolled over the fixed 2 x 2 shape. -/
def applyRecord (c : GenerationCache) (r : String × Int × Int) (seg : SongSegment) : SongSegment :=
  transferStep c r (transferStep c r (transferStep c r (transferStep c r seg 0 0) 0 1) 1 0) 1 1

/-- The record loop of transfer_to_song: records are matched to song
segments positionally, and records at positions beyond the song's
segment count are skipped. -/
def transferList (c : GenerationCache) : List (String × Int × Int) → List SongSegment → List SongSegment
  | [], segs => segs
  | _ :: _, [] => []
  | r :: rs, seg :: segs => applyRecord c r seg :: transferList c rs segs

/-- Embeds GenerationCache.transfer_to_song. -/
def GenerationCache.transfer_to_song (c : GenerationCache) (song : Song) : Song :=
  { song with segments := transferList c c.segments song.segments }

/-!  Basic facts about the rewind walk. -/

/-- Well-formed boundary table: every record's start is at most its end.
This holds for every table built by create_from_song. -/
def wfRecs (recs : List (String × Int × Int)) : Prop :=
  ∀ r ∈ recs, r.2.1 ≤ r.2.2

instance (recs : List (String × Int × Int)) : Decidable (wfRecs recs) :=
  inferInstanceAs (Decidable (∀ r ∈ recs, r.2.1 ≤ r.2.2))

theorem wfRecs_reverse (recs : List (String × Int × Int)) :
    wfRecs recs.reverse ↔ wfRecs recs := by
  simp [wfRecs]

theorem cached_total_reverse (recs : List (String × Int × Int)) :
    cached_total recs.reverse = cached_total recs := by
  simp [cached_total, List.sum_reverse]

theorem cached_total_cons (r : String × Int × Int) (recs : List (String × Int × Int)) :
    cached_total (r :: recs) = (r.2.2 - r.2.1) + cached_total recs := by
  simp [cached_total]

theorem cached_total_nonneg (recs : List (String × Int × Int)) (h : wfRecs recs) :
    0 ≤ cached_total recs := by
  induction recs with
  | nil => simp [cached_total]
  | cons r rest ih =>
    have hr := h r (List.mem_cons_self r rest)
    have hrest : wfRecs rest := fun x hx => h x (List.mem_cons_of_mem r hx)
    rw [cached_total_cons]
    have := ih hrest
    omega

theorem rewind_walk_wf (t : Int) (recs : List (String × Int × Int)) (h : wfRecs recs) :
    wfRecs (rewind_walk t recs) := by
  induction recs generalizing t with
  | nil => simpa [rewind_walk] using h
  | cons r rest ih =>
    obtain ⟨name, start, e⟩ := r
    have hr := h (name, start, e) (List.mem_cons_self _ rest)
    have hrest : wfRecs rest := fun x hx => h x (List.mem_cons_of_mem _ hx)
    rw [rewind_walk]
    split
    · exact ih _ hrest
    · intro x hx
      rcases List.mem_cons.mp hx with hx1 | hx2
      · subst hx1
        simp only
        omega
      · exact hrest x hx2

theorem rewind_walk_total (t : Int) (recs : List (String × Int × Int))
    (h : wfRecs recs) (ht : 0 ≤ t) :
    cached_total (rewind_walk t recs) = cached_total recs - min t (cached_total recs) := by
  induction recs generalizing t with
  | nil =>
    simp only [rewind_walk, cached_total, List.map_nil, List.sum_nil]
    omega
  | cons r rest ih =>
    obtain ⟨name, start, e⟩ := r
    have hr := h (name, start, e) (List.mem_cons_self _ rest)
    have hrest : wfRecs rest := fun x hx => h x (List.mem_cons_of_mem _ hx)
    have hR := cached_total_nonneg rest hrest
    rw [rewind_walk]
    split
    · rename_i hlt
      simp only at hr hlt
      rw [ih (t - (e - start)) hrest (by omega)]
      rw [cached_total_cons]
      simp only
      omega
    · rename_i hge
      simp only at hr hge
      rw [cached_total_cons, cached_total_cons]
      simp only
      omega

theorem rewind_walk_empty (t : Int) (recs : List (String × Int × Int))
    (h : wfRecs recs) (ht : cached_total recs < t) :
    rewind_walk t recs = [] := by
  induction recs generalizing t with
  | nil => rw [rewind_walk]
  | cons r rest ih =>
    obtain ⟨name, start, e⟩ := r
    have hr := h (name, start, e) (List.mem_cons_self _ rest)
    have hrest : wfRecs rest := fun x hx => h x (List.mem_cons_of_mem _ hx)
    have hR := cached_total_nonneg rest hrest
    rw [cached_total_cons] at ht
    simp only at hr ht
    rw [rewind_walk]
    rw [if_pos (by omega)]
    exact ih _ hrest (by omega)

theorem fdiv20_superadd (a b : Int) :
    Int.fdiv a 20 + Int.fdiv b 20 ≤ Int.fdiv (a + b) 20 := by
  have ha := Int.fmod_add_fdiv a 20
  have hb := Int.fmod_add_fdiv b 20
  have hab := Int.fmod_add_fdiv (a + b) 20
  have h1 : 0 ≤ Int.fmod a 20 := Int.fmod_nonneg' a (by norm_num)
  have h2 : 0 ≤ Int.fmod b 20 := Int.fmod_nonneg' b (by norm_num)
  have h3 : Int.fmod (a + b) 20 < 20 := Int.fmod_lt_of_pos (a + b) (by norm_num)
  omega

theorem rewind_total (c : GenerationCache) (timems : Int)
    (hwf : wfRecs c.segments) (ht : 0 ≤ timems) :
    cached_total (c.rewind timems).segments
      = cached_total c.segments - min (Int.fdiv timems 20) (cached_total c.segments) := by
  have htok : 0 ≤ Int.fdiv timems 20 := Int.fdiv_nonneg ht (by norm_num)
  show cached_total ((rewind_walk (Int.fdiv timems 20) c.segments.reverse).reverse) = _
  rw [cached_total_reverse,
      rewind_walk_total _ _ ((wfRecs_reverse c.segments).mpr hwf) htok,
      cached_total_reverse]

theorem rewind_wf (c : GenerationCache) (timems : Int) (hwf : wfRecs c.segments) :
    wfRecs (c.rewind timems).segments := by
  show wfRecs ((rewind_walk (Int.fdiv timems 20) c.segments.reverse).reverse)
  exact (wfRecs_reverse _).mpr
    (rewind_walk_wf _ _ ((wfRecs_reverse c.segments).mpr hwf))

/-- C2 (amended): for a well-formed boundary table, a rewind whose token
count (duration_ms floor-divided by 20) reaches or exceeds the total
cached length reduces the total cached length to zero and leaves the
flat token buffers untouched, and rewind is a total operation (it never
raises); the boundary table itself is guaranteed to become empty when
the token count strictly exceeds the total (at exact equality a
zero-length record survives). -/
theorem rewind_clamped_past_end (c : GenerationCache) (timems : Int)
    (hwf : wfRecs c.segments)
    (h : cached_total c.segments ≤ Int.fdiv timems 20) :
    cached_total (c.rewind timems).segments = 0 ∧
    (c.rewind timems).tracks = c.tracks ∧
    (cached_total c.segments < Int.fdiv timems 20 → (c.rewind timems).segments = []) := by
  have h0 : 0 ≤ cached_total c.segments := cached_total_nonneg _ hwf
  refine ⟨?_, rfl, ?_⟩
  · show cached_total ((rewind_walk (Int.fdiv timems 20) c.segments.reverse).reverse) = 0
    rw [cached_total_reverse,
        rewind_walk_total _ _ ((wfRecs_reverse c.segments).mpr hwf) (by omega),
        cached_total_reverse]
    omega
  · intro hlt
    show (rewind_walk (Int.fdiv timems 20) c.segments.reverse).reverse = []
    rw [rewind_walk_empty _ _ ((wfRecs_reverse c.segments).mpr hwf)
          (by rw [cached_total_reverse]; exact hlt)]
    rfl

def c2demo : GenerationCache :=
  { tracks := { st0 := { t0 := [7, 8, 9], t1 := [4, 5, 6] }, st1 := { t0 := [], t1 := [] } }
    segments := [("a", 0, 3)] }

theorem rewind_clamped_past_end_witness :
    wfRecs c2demo.segments ∧ cached_total c2demo.segments ≤ Int.fdiv 100 20 ∧
    (cached_total (c2demo.rewind 100).segments = 0 ∧
     (c2demo.rewind 100).tracks = c2demo.tracks ∧
     (cached_total c2demo.segments < Int.fdiv 100 20 → (c2demo.rewind 100).segments = [])) :=
  ⟨by decide, by decide, rewind_clamped_past_end c2demo 100 (by decide) (by decide)⟩

def c2eq : GenerationCache :=
  { tracks := { st0 := { t0 := [1, 2, 3, 4, 5], t1 := [] }, st1 := { t0 := [], t1 := [] } }
    segments := [("a", 0, 5)] }

/-- C2 counterexample: a 100 ms rewind of a single 5-token segment has a
token count (5) that reaches the total cached length, yet the boundary
table does not become empty: a zero-length record for the segment
survives. -/
theorem rewind_exact_total_counterexample :
    cached_total c2eq.segments ≤ Int.fdiv 100 20 ∧
    (c2eq.rewind 100).segments = [("a", 0, 0)] ∧
    (c2eq.rewind 100).segments ≠ [] := by decide

/-- C3 (amended): for a well-formed boundary table and nonnegative
durations, rewinding d1 then d2 never leaves a smaller total cached
length than a single rewind of d1 + d2 from the original state (the
sequential form can retain strictly more because each call floors its
own duration to a token count); when both durations are multiples of the
20 ms token duration the two agree, as in the concrete witness where
rewinding 500 ms then 500 ms over three 1000-token segments drops
exactly 50 tokens, matching a single 1000 ms rewind. -/
theorem rewind_split_monotone (c : GenerationCache) (d1 d2 : Int)
    (hwf : wfRecs c.segments) (h1 : 0 ≤ d1) (h2 : 0 ≤ d2) :
    cached_total ((c.rewind (d1 + d2)).segments)
      ≤ cached_total (((c.rewind d1).rewind d2).segments) := by
  have h0 : 0 ≤ cached_total c.segments := cached_total_nonneg _ hwf
  have ht1 : 0 ≤ Int.fdiv d1 20 := Int.fdiv_nonneg h1 (by norm_num)
  have ht2 : 0 ≤ Int.fdiv d2 20 := Int.fdiv_nonneg h2 (by norm_num)
  have e1 := rewind_total c d1 hwf h1
  have w1 := rewind_wf c d1 hwf
  have e2 := rewind_total (c.rewind d1) d2 w1 h2
  have e3 := rewind_total c (d1 + d2) hwf (by omega)
  have hsup := fdiv20_superadd d1 d2
  rw [e3, e2, e1]
  omega

def c3demo : GenerationCache :=
  { tracks := { st0 := { t0 := [], t1 := [] }, st1 := { t0 := [], t1 := [] } }
    segments := [("a", 0, 1000), ("b", 1000, 2000), ("c", 2000, 3000)] }

theorem rewind_split_monotone_witness :
    wfRecs c3demo.segments ∧ (0:Int) ≤ 500 ∧
    cached_total ((c3demo.rewind (500 + 500)).segments)
      ≤ cached_total (((c3demo.rewind 500).rewind 500).segments) ∧
    cached_total (((c3demo.rewind 500).rewind 500).segments) = 2950 ∧
    cached_total ((c3demo.rewind 1000).segments) = 2950 :=
  ⟨by decide, by decide, rewind_split_monotone c3demo 500 500 (by decide) (by decide) (by decide),
   by decide, by decide⟩

def c3ctr : GenerationCache :=
  { tracks := { st0 := { t0 := [], t1 := [] }, st1 := { t0 := [], t1 := [] } }
    segments := [("a", 0, 5)] }

/-- C3 counterexample: with d1 = d2 = 10 ms (d2 nonnegative), the
sequential rewind drops nothing (each call floors 10 ms to 0 tokens)
while the single 20 ms rewind drops one token, so the sequential form
leaves a strictly greater total cached length than the single call,
contradicting the claimed direction of the inequality. -/
theorem rewind_split_counterexample :
    (0:Int) ≤ 10 ∧
    cached_total (((c3ctr.rewind 10).rewind 10).segments)
      > cached_total ((c3ctr.rewind (10 + 10)).segments) := by decide

/-!  Interleave facts. -/

theorem interleave_length (as : List Int) : ∀ bs : List Int, as.length = bs.length →
    (interleave_tracks as bs).length = 2 * as.length := by
  induction as with
  | nil =>
    intro bs h
    cases bs with
    | nil => rfl
    | cons b bs => simp at h
  | cons a as ih =>
    intro bs h
    cases bs with
    | nil => simp at h
    | cons b bs =>
      have h2 : as.length = bs.length := by simpa using h
      show (a :: b :: interleave_tracks as bs).length = 2 * (a :: as).length
      simp [ih bs h2]
      omega

theorem interleave_get (as : List Int) : ∀ (bs : List Int) (k : Nat),
    as.length = bs.length → k < as.length →
    (interleave_tracks as bs).get? (2*k) = as.get? k ∧
    (interleave_tracks as bs).get? (2*k+1) = bs.get? k := by
  induction as with
  | nil =>
    intro bs k h hk
    simp at hk
  | cons a as ih =>
    intro bs k h hk
    cases bs with
    | nil => simp at h
    | cons b bs =>
      have h2 : as.length = bs.length := by simpa using h
      cases k with
      | zero => exact ⟨rfl, rfl⟩
      | succ k =>
        have hk2 : k < as.length := by simpa using hk
        have e1 : 2 * (k+1) = (2*k+1)+1 := by ring
        show ((a :: b :: interleave_tracks as bs).get? (2*(k+1)) = _) ∧
             ((a :: b :: interleave_tracks as bs).get? (2*(k+1)+1) = _)
        rw [e1]
        simp only [List.get?_cons_succ]
        exact ih bs k h2 hk2

/-- C6: when the two track buffers read by the interleave operation have
equal length N, merged_stage1_tracks succeeds with a sequence of length
2N satisfying the interleave law, and when the lengths differ it fails
explicitly (none) instead of producing a value. -/
theorem interleave_spec :
    (∀ (seg : SongSegment) (N : Nat),
        seg.tracks.st0.t0.length = N → seg.tracks.st0.t1.length = N →
        ∃ out, seg.merged_stage1_tracks = some out ∧ out.length = 2 * N ∧
          ∀ k, k < N →
            out.get? (2*k) = seg.tracks.st0.t0.get? k ∧
            out.get? (2*k+1) = seg.tracks.st0.t1.get? k) ∧
    (∀ seg : SongSegment,
        seg.tracks.st0.t0.length ≠ seg.tracks.st0.t1.length →
        seg.merged_stage1_tracks = none) := by
  constructor
  · intro seg N h0 h1
    refine ⟨interleave_tracks seg.tracks.st0.t0 seg.tracks.st0.t1, ?_, ?_, ?_⟩
    · unfold SongSegment.merged_stage1_tracks
      rw [if_pos (h0.trans h1.symm)]
    · rw [interleave_length _ _ (h0.trans h1.symm), h0]
    · intro k hk
      exact interleave_get _ _ k (h0.trans h1.symm) (by omega)
  · intro seg hne
    unfold SongSegment.merged_stage1_tracks
    rw [if_neg hne]

def seg6demo : SongSegment :=
  { name := "v", tags := [], lyrics := ""
    tracks := { st0 := { t0 := [1, 2], t1 := [3, 4] }, st1 := { t0 := [], t1 := [] } } }

theorem interleave_spec_witness :
    seg6demo.tracks.st0.t0.length = 2 ∧ seg6demo.tracks.st0.t1.length = 2 ∧
    (∃ out, seg6demo.merged_stage1_tracks = some out ∧ out.length = 2 * 2 ∧
      ∀ k, k < 2 →
        out.get? (2*k) = seg6demo.tracks.st0.t0.get? k ∧
        out.get? (2*k+1) = seg6demo.tracks.st0.t1.get? k) :=
  ⟨by decide, by decide, interleave_spec.1 seg6demo 2 (by decide) (by decide)⟩

/-!  Transfer-back facts. -/

theorem pySlice_len_len (l : List Int) :
    pySlice l (l.length : Int) (l.length : Int) = [] := by
  unfold pySlice pyBound
  rw [Int.toNat_natCast, min_self]
  rw [if_neg (not_lt.mpr (Int.natCast_nonneg l.length))]
  rw [List.take_length, List.drop_length]

/-- C10: in the per-stage/per-track body of transfer_to_song, a boundary
record whose scaled start offset equals the length of a nonempty flat
buffer (rather than strictly exceeding it) is not skipped: the end
offset clamps to the buffer length and the segment's cached track for
that stage and track is replaced by the empty slice, discarding its
previous contents. -/
theorem transfer_start_at_end_clears (c : GenerationCache) (r : String × Int × Int)
    (seg : SongSegment) (istage itrack : Nat)
    (hstart : r.2.1 * (if istage = 1 then (8:Int) else 1) = ((c.track istage itrack).length : Int))
    (hne : (c.track istage itrack).length ≠ 0)
    (hle : r.2.1 ≤ r.2.2) :
    transferStep c r seg istage itrack = seg.set_track istage itrack [] := by
  have hes : (0:Int) ≤ (if istage = 1 then (8:Int) else 1) := by split <;> norm_num
  have hge : ((c.track istage itrack).length : Int)
      ≤ r.2.2 * (if istage = 1 then (8:Int) else 1) := by
    rw [← hstart]
    exact mul_le_mul_of_nonneg_right hle hes
  have hcase : (if ((c.track istage itrack).length : Int)
        < r.2.2 * (if istage = 1 then (8:Int) else 1)
      then ((c.track istage itrack).length : Int)
      else r.2.2 * (if istage = 1 then (8:Int) else 1))
      = ((c.track istage itrack).length : Int) := by
    by_cases hul : ((c.track istage itrack).length : Int)
        < r.2.2 * (if istage = 1 then (8:Int) else 1)
    · rw [if_pos hul]
    · rw [if_neg hul]
      exact le_antisymm (not_lt.mp hul) hge
  simp only [transferStep]
  rw [if_neg (by push_neg; exact ⟨le_of_eq hstart, hne⟩)]
  rw [hcase, hstart, pySlice_len_len]

def c10demo : GenerationCache :=
  { tracks := { st0 := { t0 := [5, 6], t1 := [] }, st1 := { t0 := [], t1 := [] } }
    segments := [("a", 2, 3)] }

def seg10demo : SongSegment :=
  { name := "a", tags := [], lyrics := ""
    tracks := { st0 := { t0 := [9], t1 := [] }, st1 := { t0 := [], t1 := [] } } }

theorem transfer_start_at_end_clears_witness :
    ((("a", 2, 3) : String × Int × Int).2.1 * (if (0:Nat) = 1 then (8:Int) else 1)
      = ((c10demo.track 0 0).length : Int)) ∧
    (c10demo.track 0 0).length ≠ 0 ∧
    (("a", 2, 3) : String × Int × Int).2.1 ≤ (("a", 2, 3) : String × Int × Int).2.2 ∧
    transferStep c10demo ("a", 2, 3) seg10demo 0 0 = seg10demo.set_track 0 0 [] :=
  ⟨by decide, by decide, by decide,
   transfer_start_at_end_clears c10demo ("a", 2, 3) seg10demo 0 0 (by decide) (by decide) (by decide)⟩

/-!  Derived-lyrics claims. -/

/-- C4 counterexample: for the two-segment script below the derived
lyrics are not the plain concatenation of the segment strings, because
Song._prepare_lyrics joins them with a newline separator. -/
theorem lyrics_concat_counterexample :
    (Song.init.set_lyrics "[a]\nx\n[b]\ny").lyrics
      ≠ String.join ((Song.init.set_lyrics "[a]\nx\n[b]\ny").segments.map
          (fun seg => "[" ++ seg.name ++ "]\n" ++ seg.lyrics ++ "\n\n")) := by decide

/-- C4 (amended): after any set_lyrics call the derived lyrics field
equals the segment strings (each of the form open-bracket name
close-bracket newline lyrics two-newlines) joined with a single newline
separator between consecutive segments. -/
theorem lyrics_intercalated (song : Song) (text : String) :
    (song.set_lyrics text).lyrics
      = String.intercalate "\n" ((song.set_lyrics text).segments.map
          (fun seg => "[" ++ seg.name ++ "]\n" ++ seg.lyrics ++ "\n\n")) := rfl

/-- C9: a tag whose value fails to coerce is dropped while the parse
continues: the script with a non-numeric length value still yields its
full segment, with no length tag; and in general the number of parsed
segments equals the number of regex matches, independent of any per-tag
coercion failure. -/
theorem tag_failure_recoverable :
    parse_lyrics "#length notanumber\n[bridge]\nx"
      = [{ name := "bridge", tags := [], lyrics := "x",
           tracks := SongSegment.create_empty_tracks }] ∧
    (∀ s : String, (parse_lyrics s).length = (raw_segments s).length) := by
  refine ⟨by decide, ?_⟩
  intro s
  simp [parse_lyrics]

/-!  Length-tag parsing. -/

theorem pyWS_of_digit (c : Char) (h : c.isDigit = true) : pyWS c = false := by
  by_contra hne
  have htrue : pyWS c = true := by
    cases hws : pyWS c
    · exact absurd hws hne
    · rfl
  simp only [pyWS, Bool.or_eq_true, decide_eq_true_eq] at htrue
  rcases htrue with ((((h1 | h1) | h1) | h1) | h1) | h1 <;> subst h1 <;> exact absurd h (by decide)

theorem dropWhile_of_no_ws (l : List Char) (h : ∀ c ∈ l, pyWS c = false) :
    l.dropWhile pyWS = l := by
  cases l with
  | nil => rfl
  | cons c cs =>
    have hc := h c (List.mem_cons_self c cs)
    simp [List.dropWhile, hc]

theorem pyStrip_of_digits (l : List Char) (h : ∀ c ∈ l, c.isDigit = true) :
    (pyStrip (String.mk l)).data = l := by
  have hws : ∀ c ∈ l, pyWS c = false := fun c hc => pyWS_of_digit c (h c hc)
  show (((l.dropWhile pyWS).reverse.dropWhile pyWS).reverse) = l
  rw [dropWhile_of_no_ws l hws]
  rw [dropWhile_of_no_ws l.reverse (fun c hc => hws c (List.mem_reverse.mp hc))]
  exact List.reverse_reverse l

/-- C8: a length tag value ending in the literal suffix character parses
as the integer value of its digit prefix (raw token count), any other
length value parses as an exact decimal number of seconds times 50
truncated to an integer, and the two concrete scripts of the spec parse
to the stated segments (length 150 for the 3.0 second case, length 200
for the raw token case). -/
theorem length_tag_parse_spec :
    parse_lyrics "#length 3.0\n[verse]\nhello"
      = [{ name := "verse", tags := [("length", TagValue.int 150)], lyrics := "hello",
           tracks := SongSegment.create_empty_tracks }] ∧
    parse_lyrics "#length 200t\n[chorus]\nla"
      = [{ name := "chorus", tags := [("length", TagValue.int 200)], lyrics := "la",
           tracks := SongSegment.create_empty_tracks }] ∧
    (∀ ds : List Char, ds ≠ [] → (∀ c ∈ ds, c.isDigit = true) →
       parse_tag "length" (String.mk (ds ++ ['t']))
         = some (TagValue.int (digitsToNat ds : Int))) := by
  refine ⟨by decide, by decide, ?_⟩
  intro ds hne hdig
  have hE : endsWithT (String.mk (ds ++ ['t'])) = true := by
    unfold endsWithT
    show (match (ds ++ ['t']).getLast? with
          | some c => decide (c = 't')
          | none => false) = true
    rw [List.getLast?_concat]
    rfl
  have hdrop : (String.mk (ds ++ ['t'])).data.dropLast = ds := List.dropLast_concat
  unfold parse_tag
  rw [if_pos rfl, if_pos hE, hdrop]
  cases ds with
  | nil => exact absurd rfl hne
  | cons c r =>
    have hc := hdig c (List.mem_cons_self c r)
    have hplus : ¬(c = '+') := fun h => absurd hc (by subst h; decide)
    have hminus : ¬(c = '-') := fun h => absurd hc (by subst h; decide)
    have hdata := pyStrip_of_digits (c :: r) hdig
    show (pyParseInt (String.mk (c :: r))).map TagValue.int = _
    simp only [pyParseInt]
    rw [hdata]
    rw [List.head?_cons]
    rw [if_neg (fun h => hplus (Option.some.inj h)),
        if_neg (fun h => hminus (Option.some.inj h)),
        if_neg (List.cons_ne_nil c r)]
    unfold pyParseIntCore
    rw [if_pos ⟨List.cons_ne_nil c r, List.all_eq_true.mpr (fun x hx => hdig x hx)⟩]
    rfl

theorem length_tag_parse_spec_witness :
    (['2', '0', '0'] : List Char) ≠ [] ∧
    (∀ c ∈ (['2', '0', '0'] : List Char), c.isDigit = true) ∧
    parse_tag "length" (String.mk (['2', '0', '0'] ++ ['t']))
      = some (TagValue.int (digitsToNat ['2', '0', '0'] : Int)) :=
  ⟨by decide, by decide, length_tag_parse_spec.2.2 ['2', '0', '0'] (by decide) (by decide)⟩

/-!  Merge-forward facts. -/

theorem mergeForward_get_lt : ∀ (ns os : List SongSegment) (i : Nat) (sN sO : SongSegment),
    (mergeForward ns os).get? i = some sN → os.get? i = some sO → sN.tracks = sO.tracks := by
  intro ns
  induction ns with
  | nil =>
    intro os i sN sO hN hO
    simp [mergeForward] at hN
  | cons n ns ih =>
    intro os i sN sO hN hO
    cases os with
    | nil => simp at hO
    | cons o os =>
      cases i with
      | zero =>
        have h1 : ({ n with tracks := o.tracks } : SongSegment) = sN := by
          simpa [mergeForward] using hN
        have h2 : o = sO := by simpa using hO
        rw [← h1, ← h2]
      | succ i =>
        have hN2 : (mergeForward ns os).get? i = some sN := by
          simpa [mergeForward] using hN
        have hO2 : os.get? i = some sO := by simpa using hO
        exact ih os i sN sO hN2 hO2

theorem mergeForward_get_ge : ∀ (ns os : List SongSegment) (i : Nat),
    os.length ≤ i → (mergeForward ns os).get? i = ns.get? i := by
  intro ns
  induction ns with
  | nil => intro os i h; cases os <;> rfl
  | cons n ns ih =>
    intro os i h
    cases os with
    | nil => rfl
    | cons o os =>
      cases i with
      | zero => simp at h
      | succ i =>
        show (mergeForward (n :: ns) (o :: os)).get? (i+1) = (n :: ns).get? (i+1)
        have h2 : os.length ≤ i := by simpa using h
        simpa [mergeForward] using ih os i h2

theorem parse_lyrics_tracks_empty (t : String) :
    ∀ s ∈ parse_lyrics t, s.tracks = SongSegment.create_empty_tracks := by
  intro s hs
  obtain ⟨m, hm, rfl⟩ := List.mem_map.mp hs
  rfl

theorem mergeForward_self : ∀ l : List SongSegment, mergeForward l l = l := by
  intro l
  induction l with
  | nil => rfl
  | cons x xs ih =>
    show ({ x with tracks := x.tracks } : SongSegment) :: mergeForward xs xs = x :: xs
    rw [ih]

theorem mergeForward_idem : ∀ (ns os : List SongSegment),
    mergeForward ns (mergeForward ns os) = mergeForward ns os := by
  intro ns
  induction ns with
  | nil => intro os; cases os <;> rfl
  | cons n ns ih =>
    intro os
    cases os with
    | nil =>
      show mergeForward (n :: ns) (n :: ns) = n :: ns
      exact mergeForward_self (n :: ns)
    | cons o os =>
      show ({ n with tracks := o.tracks } : SongSegment) :: mergeForward ns (mergeForward ns os)
          = { n with tracks := o.tracks } :: mergeForward ns os
      rw [ih]

/-- C7: re-parsing lyrics merges cached token buffers positionally: at
every index where both the old and new segment lists have a segment the
new segment adopts the old segment's tracks, every index at or beyond
the old length keeps fresh empty tracks, and re-applying set_lyrics with
the identical text is a no-op (so cached tokens are preserved). -/
theorem merge_forward_spec (song : Song) (text : String) :
    (∀ (i : Nat) (sN sO : SongSegment),
        (song.set_lyrics text).segments.get? i = some sN →
        song.segments.get? i = some sO →
        sN.tracks = sO.tracks) ∧
    (∀ (i : Nat) (sN : SongSegment), song.segments.length ≤ i →
        (song.set_lyrics text).segments.get? i = some sN →
        sN.tracks = SongSegment.create_empty_tracks) ∧
    (song.set_lyrics text).set_lyrics text = song.set_lyrics text := by
  refine ⟨?_, ?_, ?_⟩
  · intro i sN sO hN hO
    exact mergeForward_get_lt _ _ i sN sO hN hO
  · intro i sN hge hN
    rw [show (song.set_lyrics text).segments
          = mergeForward (parse_lyrics (pyStrip text)) song.segments from rfl] at hN
    rw [mergeForward_get_ge _ _ i hge] at hN
    exact parse_lyrics_tracks_empty _ _ (List.get?_mem hN)
  · unfold Song.set_lyrics Song.prepare_lyrics
    simp only [mergeForward_idem]

def song7 : Song :=
  { Song.init with
    segments := [{ name := "z", tags := [], lyrics := "w"
                   tracks := { st0 := { t0 := [42], t1 := [] }, st1 := { t0 := [], t1 := [] } } }] }

def seg7a : SongSegment :=
  { name := "a", tags := [], lyrics := "x"
    tracks := { st0 := { t0 := [42], t1 := [] }, st1 := { t0 := [], t1 := [] } } }

def seg7o : SongSegment :=
  { name := "z", tags := [], lyrics := "w"
    tracks := { st0 := { t0 := [42], t1 := [] }, st1 := { t0 := [], t1 := [] } } }

def seg7b : SongSegment :=
  { name := "b", tags := [], lyrics := "y", tracks := SongSegment.create_empty_tracks }

theorem merge_forward_spec_witness :
    (song7.set_lyrics "[a]\nx\n[b]\ny").segments.get? 0 = some seg7a ∧
    song7.segments.get? 0 = some seg7o ∧
    seg7a.tracks = seg7o.tracks ∧
    song7.segments.length ≤ 1 ∧
    (song7.set_lyrics "[a]\nx\n[b]\ny").segments.get? 1 = some seg7b ∧
    seg7b.tracks = SongSegment.create_empty_tracks :=
  ⟨by decide, by decide,
   (merge_forward_spec song7 "[a]\nx\n[b]\ny").1 0 seg7a seg7o (by decide) (by decide),
   by decide, by decide,
   (merge_forward_spec song7 "[a]\nx\n[b]\ny").2.1 1 seg7b (by decide) (by decide)⟩

/-!  Boundary-table construction facts. -/

theorem mkBoundaries_names : ∀ (segs : List SongSegment) (c : Int),
    (mkBoundaries c segs).map (fun r => r.1)
      = (segs.filter (fun s => s.cached_length 0 0 != 0)).map SongSegment.name := by
  intro segs
  induction segs with
  | nil => intro c; rfl
  | cons seg rest ih =>
    intro c
    by_cases h : seg.cached_length 0 0 = 0
    · simp [mkBoundaries, h, ih]
    · simp [mkBoundaries, h, ih]

theorem mkBoundaries_lens : ∀ (segs : List SongSegment) (c : Int),
    (mkBoundaries c segs).map (fun r => r.2.2 - r.2.1)
      = (segs.filter (fun s => s.cached_length 0 0 != 0)).map
          (fun s => (s.cached_length 0 0 : Int)) := by
  intro segs
  induction segs with
  | nil => intro c; rfl
  | cons seg rest ih =>
    intro c
    by_cases h : seg.cached_length 0 0 = 0
    · simp [mkBoundaries, h, ih]
    · simp [mkBoundaries, h, ih]

theorem mkBoundaries_chain : ∀ (segs : List SongSegment) (c : Int) (prev : String × Int × Int),
    prev.2.2 = c →
    List.Chain' (fun a b => a.2.2 = b.2.1) (prev :: mkBoundaries c segs) := by
  intro segs
  induction segs with
  | nil => intro c prev hp; exact List.chain'_singleton prev
  | cons seg rest ih =>
    intro c prev hp
    by_cases h : seg.cached_length 0 0 = 0
    · rw [show mkBoundaries c (seg :: rest) = mkBoundaries c rest by simp [mkBoundaries, h]]
      exact ih c prev hp
    · rw [show mkBoundaries c (seg :: rest)
            = (seg.name, c, c + (seg.cached_length 0 0 : Int))
                :: mkBoundaries (c + (seg.cached_length 0 0 : Int)) rest by
          simp [mkBoundaries, h]]
      rw [List.chain'_cons]
      exact ⟨hp, ih _ _ rfl⟩

theorem mkBoundaries_nil_sum : ∀ (segs : List SongSegment) (c : Int),
    mkBoundaries c segs = [] → (segs.map (fun s => s.cached_length 0 0)).sum = 0 := by
  intro segs
  induction segs with
  | nil => intro c h; rfl
  | cons seg rest ih =>
    intro c h
    by_cases hz : seg.cached_length 0 0 = 0
    · rw [show mkBoundaries c (seg :: rest) = mkBoundaries c rest by simp [mkBoundaries, hz]] at h
      simp [hz, ih c h]
    · rw [show mkBoundaries c (seg :: rest)
            = (seg.name, c, c + (seg.cached_length 0 0 : Int))
                :: mkBoundaries (c + (seg.cached_length 0 0 : Int)) rest by
          simp [mkBoundaries, hz]] at h
      exact absurd h (List.cons_ne_nil _ _)

theorem cast_sum_cached : ∀ l : List SongSegment,
    (List.map (fun s => (s.cached_length 0 0 : Int)) l).sum
      = (Nat.cast ((List.map (fun s => s.cached_length 0 0) l).sum) : Int) := by
  intro l
  induction l with
  | nil => rfl
  | cons x xs ih =>
    simp only [List.map_cons, List.sum_cons, ih]
    push_cast
    ring

theorem mkBoundaries_last : ∀ (segs : List SongSegment) (c : Int) (r : String × Int × Int),
    (mkBoundaries c segs).getLast? = some r →
    r.2.2 = c + ((segs.map (fun s => s.cached_length 0 0)).sum : Int) := by
  intro segs
  induction segs with
  | nil => intro c r h; simp [mkBoundaries] at h
  | cons seg rest ih =>
    intro c r h
    by_cases hz : seg.cached_length 0 0 = 0
    · rw [show mkBoundaries c (seg :: rest) = mkBoundaries c rest by simp [mkBoundaries, hz]] at h
      have hih := ih c r h
      simp only [List.map_cons, List.sum_cons, hz]
      push_cast at hih ⊢
      omega
    · rw [show mkBoundaries c (seg :: rest)
            = (seg.name, c, c + (seg.cached_length 0 0 : Int))
                :: mkBoundaries (c + (seg.cached_length 0 0 : Int)) rest by
          simp [mkBoundaries, hz]] at h
      cases htail : mkBoundaries (c + (seg.cached_length 0 0 : Int)) rest with
      | nil =>
        rw [htail] at h
        have hr : r = (seg.name, c, c + (seg.cached_length 0 0 : Int)) := by
          simpa using h.symm
        have hsum := mkBoundaries_nil_sum rest _ htail
        subst hr
        rw [List.map_cons, List.sum_cons, cast_sum_cached, hsum]
        norm_num
      | cons x xs =>
        rw [htail, List.getLast?_cons_cons] at h
        rw [← htail] at h
        have := ih (c + (seg.cached_length 0 0 : Int)) r h
        simp only [List.map_cons, List.sum_cons]
        push_cast at this ⊢
        omega

theorem merge_segments_flat_length (song : Song) :
    (song.merge_segments 0).t0.length
      = (song.segments.map (fun s => s.cached_length 0 0)).sum := by
  simp [Song.merge_segments, SongSegment.cached_length, Function.comp_def]

/-- C5: the boundary table built by create_from_song has exactly one
record per segment with nonzero stage-0/track-0 cached length, in Song
segment order, each record's length equal to that segment's cached
length; ranges are contiguous and non-overlapping starting from 0
(expressed by chaining from a zero sentinel record), and the last
record's end equals the length of the flat stage-0 track-0 buffer.
Zero-length segments produce no record and do not advance the cursor. -/
theorem boundary_table_spec (song : Song) :
    ((GenerationCache.create_from_song song).segments.map (fun r => r.1)
       = (song.segments.filter (fun s => s.cached_length 0 0 != 0)).map SongSegment.name) ∧
    ((GenerationCache.create_from_song song).segments.map (fun r => r.2.2 - r.2.1)
       = (song.segments.filter (fun s => s.cached_length 0 0 != 0)).map
           (fun s => (s.cached_length 0 0 : Int))) ∧
    List.Chain' (fun a b => a.2.2 = b.2.1)
      (("", 0, 0) :: (GenerationCache.create_from_song song).segments) ∧
    (∀ r, (GenerationCache.create_from_song song).segments.getLast? = some r →
       r.2.2 = (((GenerationCache.create_from_song song).track 0 0).length : Int)) := by
  refine ⟨mkBoundaries_names song.segments 0, mkBoundaries_lens song.segments 0,
          mkBoundaries_chain song.segments 0 ("", 0, 0) rfl, ?_⟩
  intro r h
  have h1 := mkBoundaries_last song.segments 0 r h
  have h2 := merge_segments_flat_length song
  show r.2.2 = (((song.merge_segments 0).t0).length : Int)
  rw [h2]
  rw [cast_sum_cached] at h1
  omega

def song5 : Song :=
  { Song.init with
    segments := [{ name := "a", tags := [], lyrics := "", tracks := SongSegment.create_empty_tracks },
                 { name := "b", tags := [], lyrics := ""
                   tracks := { st0 := { t0 := [1, 2], t1 := [] }, st1 := { t0 := [], t1 := [] } } }] }

theorem boundary_table_spec_witness :
    (GenerationCache.create_from_song song5).segments.getLast? = some ("b", 0, 2) ∧
    (("b", 0, 2) : String × Int × Int).2.2
      = (((GenerationCache.create_from_song song5).track 0 0).length : Int) ∧
    (GenerationCache.create_from_song song5).segments.map (fun r => r.1)
      = (song5.segments.filter (fun s => s.cached_length 0 0 != 0)).map SongSegment.name :=
  ⟨by decide, (boundary_table_spec song5).2.2.2 ("b", 0, 2) (by decide),
   (boundary_table_spec song5).1⟩

/-!  Round-trip of create_from_song followed by transfer_to_song. -/

/-- Alignment of one segment's buffers as the round trip requires: a
nonzero stage-0/track-0 length, the other stage-0 track of the same
length, and both stage-1 tracks 8 times as long (the stage-1 element
size used by transfer_to_song). -/
def goodSeg (seg : SongSegment) : Prop :=
  seg.cached_length 0 0 ≠ 0 ∧
  seg.cached_length 0 1 = seg.cached_length 0 0 ∧
  seg.cached_length 1 0 = 8 * seg.cached_length 0 0 ∧
  seg.cached_length 1 1 = 8 * seg.cached_length 0 0

instance (seg : SongSegment) : Decidable (goodSeg seg) :=
  inferInstanceAs (Decidable (seg.cached_length 0 0 ≠ 0 ∧
    seg.cached_length 0 1 = seg.cached_length 0 0 ∧
    seg.cached_length 1 0 = 8 * seg.cached_length 0 0 ∧
    seg.cached_length 1 1 = 8 * seg.cached_length 0 0))

theorem set_track_self : ∀ (seg : SongSegment) (i j : Nat),
    seg.set_track i j (seg.track i j) = seg := by
  intro seg i j
  match i, j with
  | 0, 0 => rfl
  | 0, 1 => rfl
  | 1, 0 => rfl
  | 1, 1 => rfl
  | 0, _+2 => rfl
  | 1, _+2 => rfl
  | _+2, _ => rfl

theorem pyBound_natCast (len n : Nat) : pyBound len (n : Int) = min n len := by
  unfold pyBound
  rw [if_neg (not_lt.mpr (Int.natCast_nonneg n)), Int.toNat_natCast]

theorem pySlice_append (P M S : List Int) :
    pySlice (P ++ M ++ S) (P.length : Int) (((P.length + M.length : Nat)) : Int) = M := by
  unfold pySlice
  rw [pyBound_natCast, pyBound_natCast]
  have h1 : min (P.length + M.length) (P ++ M ++ S).length = P.length + M.length := by
    simp only [List.length_append]
    omega
  have h2 : min P.length (P ++ M ++ S).length = P.length := by
    simp only [List.length_append]
    omega
  rw [h1, h2]
  rw [List.take_append_eq_append_take]
  rw [List.take_of_length_le (by simp only [List.length_append]; omega)]
  rw [show P.length + M.length - (P ++ M).length = 0 by simp only [List.length_append]; omega]
  rw [List.take_zero, List.append_nil, List.drop_left]

theorem transferStep_keep (c : GenerationCache) (nm : String) (cursor L : Nat)
    (seg : SongSegment) (istage itrack : Nat) (elem : Nat) (P S : List Int)
    (helem : (if istage = 1 then (8:Int) else 1) = (elem : Int))
    (htrack : c.track istage itrack = P ++ seg.track istage itrack ++ S)
    (hP : P.length = elem * cursor)
    (hM : (seg.track istage itrack).length = elem * L)
    (hL : 0 < L) (he : 0 < elem) :
    transferStep c (nm, (cursor : Int), ((cursor + L : Nat) : Int)) seg istage itrack = seg := by
  have hlen : (c.track istage itrack).length = elem * cursor + (elem * L + S.length) := by
    rw [htrack]
    simp [hP, hM]
  have hMpos : 0 < elem * L := Nat.mul_pos he hL
  have hstart : ((cursor : Int) * (elem : Int)) = ((P.length : Nat) : Int) := by
    rw [hP]
    push_cast
    ring
  have hend : (((cursor + L : Nat) : Int) * (elem : Int))
      = ((P.length + (seg.track istage itrack).length : Nat) : Int) := by
    rw [hP, hM]
    push_cast
    ring
  simp only [transferStep]
  rw [helem]
  rw [if_neg (by
    push_neg
    constructor
    · rw [hstart, hlen]
      push_cast
      omega
    · omega)]
  rw [if_neg (by
    rw [hend, hlen]
    push_cast
    omega)]
  rw [hstart, hend, htrack, pySlice_append]
  exact set_track_self seg istage itrack

theorem transferList_roundtrip : ∀ (segs : List SongSegment) (cursor : Nat)
    (c : GenerationCache) (P00 P01 P10 P11 : List Int),
    (∀ s ∈ segs, goodSeg s) →
    c.track 0 0 = P00 ++ (segs.map (fun s => s.track 0 0)).flatten →
    c.track 0 1 = P01 ++ (segs.map (fun s => s.track 0 1)).flatten →
    c.track 1 0 = P10 ++ (segs.map (fun s => s.track 1 0)).flatten →
    c.track 1 1 = P11 ++ (segs.map (fun s => s.track 1 1)).flatten →
    P00.length = cursor → P01.length = cursor →
    P10.length = 8 * cursor → P11.length = 8 * cursor →
    transferList c (mkBoundaries (cursor : Int) segs) segs = segs := by
  intro segs
  induction segs with
  | nil =>
    intro cursor c P00 P01 P10 P11 _ _ _ _ _ _ _ _ _
    rw [show mkBoundaries ((cursor : Nat) : Int) ([] : List SongSegment) = [] by
      simp [mkBoundaries]]
    rfl
  | cons seg rest ih =>
    intro cursor c P00 P01 P10 P11 hgood h00 h01 h10 h11 hP00 hP01 hP10 hP11
    obtain ⟨hz, ht01, ht10, ht11⟩ := hgood seg (List.mem_cons_self seg rest)
    have hgrest : ∀ s ∈ rest, goodSeg s := fun s hs => hgood s (List.mem_cons_of_mem seg hs)
    have hLpos : 0 < seg.cached_length 0 0 := Nat.pos_of_ne_zero hz
    have hlen00 : (seg.track 0 0).length = seg.cached_length 0 0 := rfl
    have hlen01 : (seg.track 0 1).length = seg.cached_length 0 0 := ht01
    have hlen10 : (seg.track 1 0).length = 8 * seg.cached_length 0 0 := ht10
    have hlen11 : (seg.track 1 1).length = 8 * seg.cached_length 0 0 := ht11
    rw [show mkBoundaries ((cursor : Nat) : Int) (seg :: rest)
          = (seg.name, ((cursor : Nat) : Int),
              ((cursor : Nat) : Int) + ((seg.cached_length 0 0 : Nat) : Int))
              :: mkBoundaries (((cursor : Nat) : Int) + ((seg.cached_length 0 0 : Nat) : Int)) rest by
        simp [mkBoundaries, hz]]
    rw [show (((cursor : Nat) : Int) + ((seg.cached_length 0 0 : Nat) : Int))
          = (((cursor + seg.cached_length 0 0 : Nat)) : Int) by push_cast; ring]
    show applyRecord c
          (seg.name, ((cursor : Nat) : Int), (((cursor + seg.cached_length 0 0 : Nat)) : Int)) seg
        :: transferList c
             (mkBoundaries (((cursor + seg.cached_length 0 0 : Nat)) : Int) rest) rest
        = seg :: rest
    have k00 : transferStep c
        (seg.name, ((cursor : Nat) : Int), (((cursor + seg.cached_length 0 0 : Nat)) : Int))
        seg 0 0 = seg :=
      transferStep_keep c seg.name cursor (seg.cached_length 0 0) seg 0 0 1 P00
        ((rest.map (fun s => s.track 0 0)).flatten)
        (by norm_num)
        (by rw [h00, List.map_cons, List.flatten_cons, ← List.append_assoc])
        (by rw [Nat.one_mul]; exact hP00)
        (by rw [Nat.one_mul]; exact hlen00)
        hLpos (by norm_num)
    have k01 : transferStep c
        (seg.name, ((cursor : Nat) : Int), (((cursor + seg.cached_length 0 0 : Nat)) : Int))
        seg 0 1 = seg :=
      transferStep_keep c seg.name cursor (seg.cached_length 0 0) seg 0 1 1 P01
        ((rest.map (fun s => s.track 0 1)).flatten)
        (by norm_num)
        (by rw [h01, List.map_cons, List.flatten_cons, ← List.append_assoc])
        (by rw [Nat.one_mul]; exact hP01)
        (by rw [Nat.one_mul]; exact hlen01)
        hLpos (by norm_num)
    have k10 : transferStep c
        (seg.name, ((cursor : Nat) : Int), (((cursor + seg.cached_length 0 0 : Nat)) : Int))
        seg 1 0 = seg :=
      transferStep_keep c seg.name cursor (seg.cached_length 0 0) seg 1 0 8 P10
        ((rest.map (fun s => s.track 1 0)).flatten)
        (by norm_num)
        (by rw [h10, List.map_cons, List.flatten_cons, ← List.append_assoc])
        hP10
        hlen10
        hLpos (by norm_num)
    have k11 : transferStep c
        (seg.name, ((cursor : Nat) : Int), (((cursor + seg.cached_length 0 0 : Nat)) : Int))
        seg 1 1 = seg :=
      transferStep_keep c seg.name cursor (seg.cached_length 0 0) seg 1 1 8 P11
        ((rest.map (fun s => s.track 1 1)).flatten)
        (by norm_num)
        (by rw [h11, List.map_cons, List.flatten_cons, ← List.append_assoc])
        hP11
        hlen11
        hLpos (by norm_num)
    have happ : applyRecord c
        (seg.name, ((cursor : Nat) : Int), (((cursor + seg.cached_length 0 0 : Nat)) : Int)) seg
        = seg := by
      simp only [applyRecord]
      rw [k00, k01, k10, k11]
    rw [happ]
    have htail := ih (cursor + seg.cached_length 0 0) c
      (P00 ++ seg.track 0 0) (P01 ++ seg.track 0 1) (P10 ++ seg.track 1 0) (P11 ++ seg.track 1 1)
      hgrest
      (by rw [h00, List.map_cons, List.flatten_cons, ← List.append_assoc])
      (by rw [h01, List.map_cons, List.flatten_cons, ← List.append_assoc])
      (by rw [h10, List.map_cons, List.flatten_cons, ← List.append_assoc])
      (by rw [h11, List.map_cons, List.flatten_cons, ← List.append_assoc])
      (by rw [List.length_append, hP00, hlen00])
      (by rw [List.length_append, hP01, hlen01])
      (by rw [List.length_append, hP10, hlen10, Nat.mul_add])
      (by rw [List.length_append, hP11, hlen11, Nat.mul_add])
    rw [htail]

def song1ctr : Song :=
  { Song.init with
    segments := [{ name := "a", tags := [], lyrics := ""
                   tracks := { st0 := { t0 := [1], t1 := [1, 2] }, st1 := { t0 := [], t1 := [] } } }] }

/-- C1 counterexample: a song whose single segment has stage-0 track
buffers of different lengths (one versus two tokens).  The boundary
record spans one token, so transfer_to_song slices the stage-0 track-1
flat buffer down to one element and the round trip does not restore the
original two-element buffer. -/
theorem transfer_roundtrip_counterexample :
    (GenerationCache.create_from_song song1ctr).transfer_to_song song1ctr ≠ song1ctr := by
  decide

/-- C1 (amended): the round trip of create_from_song followed by
transfer_to_song with unmodified flat buffers is the identity on the
Song, provided every segment is aligned: nonzero stage-0/track-0 cached
length, equal lengths across the two stage-0 tracks, and stage-1 tracks
exactly 8 elements per stage-0 token.  Without the alignment hypothesis
the round trip can alter segment buffers (see the counterexample). -/
theorem transfer_roundtrip_aligned (song : Song)
    (h : ∀ seg ∈ song.segments, goodSeg seg) :
    (GenerationCache.create_from_song song).transfer_to_song song = song := by
  show { song with
           segments := transferList (GenerationCache.create_from_song song)
             (GenerationCache.create_from_song song).segments song.segments } = song
  have hseg : transferList (GenerationCache.create_from_song song)
      (GenerationCache.create_from_song song).segments song.segments = song.segments := by
    have := transferList_roundtrip song.segments 0
      (GenerationCache.create_from_song song) [] [] [] [] h rfl rfl rfl rfl rfl rfl rfl rfl
    exact this
  rw [hseg]

def song1w : Song :=
  { Song.init with
    segments := [{ name := "a", tags := [], lyrics := ""
                   tracks := { st0 := { t0 := [1], t1 := [2] }
                               st1 := { t0 := [3, 4, 5, 6, 7, 8, 9, 10]
                                        t1 := [11, 12, 13, 14, 15, 16, 17, 18] } } }] }

theorem transfer_roundtrip_aligned_witness :
    (∀ seg ∈ song1w.segments, goodSeg seg) ∧
    (GenerationCache.create_from_song song1w).transfer_to_song song1w = song1w :=
  ⟨by decide, transfer_roundtrip_aligned song1w (by decide)⟩
